import Mathlib

/-!
Verification of the Nuvalla governed-execution replay harness.

The development shallowly embeds the governance core of the repository:

* `MockSystems` with `execute` / `undo` / `get_record`
  (Agent_Misbehavior_Replay.py lines 91-135; FINTECH_ONLY.py's `MockSystems`
  lines 89-122 is the same code with `execute_direct` named `execute` and
  `idempotency` named `action_to_external`);
* `NuvallaHook` with `approve` / `evaluate` and its demo policy
  (Agent_Misbehavior_Replay.py lines 153-264);
* the per-call body of `run_trace_with_nuvalla`
  (Agent_Misbehavior_Replay.py lines 339-357), here `runStep`;
* the approval-delivery schedule of `run_fintech_replay`
  (FINTECH_ONLY.py lines 283-322), here `fintechReplayEvents`.

Python dictionaries are modelled as association lists with the same
insertion-order update semantics (`aget` / `aset`); `uuid.uuid4()` freshness
is modelled by a counter threaded through `MockSystems`; wall-clock
timestamp fields (`created_at_ms` inside ledger records) carry no
information used anywhere and are not modelled.
-/

namespace Nuvalla

/-- A Python value as it appears in `params` dictionaries and `receipt`
dictionaries of the source: ints, strings, bools, lists and string-keyed
dicts. -/
inductive PyVal : Type where
  | pInt : Int → PyVal
  | pStr : String → PyVal
  | pBool : Bool → PyVal
  | pList : List PyVal → PyVal
  | pDict : List (String × PyVal) → PyVal

/-- Lookup in a Python dict modelled as an association list. -/
def aget {α : Type} : List (String × α) → String → Option α
  | [], _ => none
  | (k', v') :: t, k => if k' = k then some v' else aget t k

/-- Python dict assignment `d[k] = v`: replaces in place when the key is
present (keeping its position, as Python dicts do), otherwise appends the
new binding at the end (Python insertion order). -/
def aset {α : Type} : List (String × α) → String → α → List (String × α)
  | [], k, v => [(k, v)]
  | (k', v') :: t, k, v => if k' = k then (k, v) :: t else (k', v') :: aset t k v

/-- Python `int(x)` at the call sites of the source. The source only ever
applies it to ints that came out of `params`; string parsing defaults to 0
where Python would raise, and the list/dict cases (a `TypeError` in Python)
are never reached by any trace. -/
def PyVal.toInt : PyVal → Int
  | .pInt n => n
  | .pBool b => if b then 1 else 0
  | .pStr s => (s.toInt?).getD 0
  | .pList _ => 0
  | .pDict _ => 0

/-- Python truthiness, `bool(x)`. -/
def PyVal.toBool : PyVal → Bool
  | .pInt n => decide (n ≠ 0)
  | .pStr s => decide (s ≠ "")
  | .pBool b => b
  | .pList xs => !xs.isEmpty
  | .pDict kvs => !kvs.isEmpty

/-- Python `str(x)` at the call sites of the source (only ever applied to
strings there; the list/dict `repr` forms are never reached). -/
def PyVal.toStr : PyVal → String
  | .pStr s => s
  | .pInt n => toString n
  | .pBool b => if b then "True" else "False"
  | .pList _ => ""
  | .pDict _ => ""

/-- One recorded write attempt (`ToolCall` frozen dataclass,
Agent_Misbehavior_Replay.py lines 46-59; FINTECH_ONLY.py lines 44-56 is
field-for-field the same). `action_id` is the idempotency key. -/
structure ToolCall : Type where
  action_id : String
  actor : String
  system : String
  operation : String
  params : List (String × PyVal)
  txn_id : String
  created_at_ms : Int

/-- One human approval event (`Approval` frozen dataclass,
Agent_Misbehavior_Replay.py lines 62-72; FINTECH_ONLY.py lines 59-68 is
field-for-field the same).  These five fields are the complete field list of
the frozen dataclass: it has no `deliver_after_step` field. -/
structure Approval : Type where
  action_id : String
  approved_by : String
  role : String
  method : String
  approved_at_ms : Int

/-- The `Decision` enum (Agent_Misbehavior_Replay.py lines 39-43). -/
inductive Decision : Type where
  | COMMIT
  | BLOCK
  | REQUIRE_APPROVAL
  | UNDO
deriving DecidableEq

/-- One ledger record as stored by `MockSystems.execute_direct`
(Agent_Misbehavior_Replay.py lines 116-121).  The source also stores a
`created_at_ms` wall-clock timestamp, which no code ever reads; it is not
modelled. -/
structure LedgerRec : Type where
  operation : String
  params : List (String × PyVal)
  deleted : Bool

/-- The fake external world (`MockSystems.__init__`,
Agent_Misbehavior_Replay.py lines 96-98): `state` maps a system name to its
records keyed by `external_id`, `idempotency` maps an `action_id` to the
`external_id` of its one committed effect.  `uuidCtr` models the stream of
fresh `uuid.uuid4()` identifiers as a counter. -/
structure MockSystems : Type where
  state : List (String × List (String × LedgerRec))
  idempotency : List (String × String)
  uuidCtr : Nat

/-- `MockSystems._new_id` (line 100-101): a `system:<fresh>` identifier. -/
def newId (system : String) (ctr : Nat) : String :=
  system ++ ":" ++ toString ctr

/-- The dict `execute_direct` returns (lines 111, 122). -/
structure ExecResult : Type where
  ok : Bool
  external_id : String
  idempotent_replay : Bool
deriving DecidableEq

/-- `MockSystems.execute_direct` (Agent_Misbehavior_Replay.py lines 103-122;
identical to `MockSystems.execute`, FINTECH_ONLY.py lines 101-115): if the
`action_id` was seen before, return the stored `external_id` with
`idempotent_replay = true` and touch nothing; otherwise mint a fresh
`external_id`, record the idempotency binding and the ledger record, and
return `idempotent_replay = false`. -/
def MockSystems.execute (s : MockSystems) (call : ToolCall) : ExecResult × MockSystems :=
  match aget s.idempotency call.action_id with
  | some ext => ({ ok := true, external_id := ext, idempotent_replay := true }, s)
  | none =>
    let ext := newId call.system s.uuidCtr
    ({ ok := true, external_id := ext, idempotent_replay := false },
     { state := aset s.state call.system
         (aset ((aget s.state call.system).getD []) ext
           { operation := call.operation, params := call.params, deleted := false }),
       idempotency := aset s.idempotency call.action_id ext,
       uuidCtr := s.uuidCtr + 1 })

/-- The dict `MockSystems.undo` returns (lines 130, 132): either
`ok=False, error="record_not_found"` or `ok=True` with an `undo_id`. -/
inductive UndoResult : Type where
  | err (error : String)
  | ok (undo_id : String)
deriving DecidableEq

/-- The same result as the Python dict value it is embedded as when a
receipt carries it (`"undo": undo_res`, line 356). -/
def UndoResult.toPy : UndoResult → PyVal
  | .err e => .pDict [("ok", .pBool false), ("error", .pStr e)]
  | .ok u => .pDict [("ok", .pBool true), ("undo_id", .pStr u)]

/-- `MockSystems.undo` (Agent_Misbehavior_Replay.py lines 124-132;
identical to FINTECH_ONLY.py lines 117-122): look the record up under the
call's system; if absent report `record_not_found`, otherwise set
`deleted = true` in place and return `undo:<external_id>`. -/
def MockSystems.undo (s : MockSystems) (call : ToolCall) (external_id : String) :
    UndoResult × MockSystems :=
  match aget ((aget s.state call.system).getD []) external_id with
  | none => (.err "record_not_found", s)
  | some r =>
    (.ok ("undo:" ++ external_id),
     { s with state := (aset s.state call.system
         (aset ((aget s.state call.system).getD []) external_id { r with deleted := true })) })

/-- `MockSystems.get_record` (lines 134-135). -/
def MockSystems.get_record (s : MockSystems) (system external_id : String) : Option LedgerRec :=
  aget ((aget s.state system).getD []) external_id

/-- Executing a list of calls in sequence, as the replay loops do. -/
def execAll : List ToolCall → MockSystems → List ExecResult × MockSystems
  | [], s => ([], s)
  | c :: cs, s =>
    let p := s.execute c
    let q := execAll cs p.2
    (p.1 :: q.1, q.2)

/-- Number of ledger records across all systems. -/
def sizeOfState (st : List (String × List (String × LedgerRec))) : Nat :=
  (st.map (fun p => p.2.length)).sum

/-- The evaluation record `NuvallaEval` (Agent_Misbehavior_Replay.py
lines 142-150), with the dataclass defaults. -/
structure NuvallaEval : Type where
  decision : Decision
  message : String
  commit_allowed : Bool := false
  required_approvals : Nat := 0
  receipt : List (String × PyVal) := []

/-- `NuvallaHook._approvals_by_action` (line 162): a dict from `action_id`
to the list of approvals recorded for it. -/
abbrev HookState : Type := List (String × List Approval)

/-- `NuvallaHook.approve` (lines 164-166):
`self._approvals_by_action.setdefault(approval.action_id, []).append(approval)`. -/
def NuvallaHook.approve (st : HookState) (a : Approval) : HookState :=
  aset st a.action_id (((aget st a.action_id).getD []) ++ [a])

/-- `self._approvals_by_action.get(action_id, [])` (line 179). -/
def approvalsFor (st : HookState) (action_id : String) : List Approval :=
  (aget st action_id).getD []

/-- Recording a list of approvals in order, as the replay loop's
`for a in trace.approvals: hook.approve(a)` does (lines 333-334). -/
def recordAll (st : HookState) (apprs : List Approval) : HookState :=
  apprs.foldl NuvallaHook.approve st

/-- `a.__dict__` of an `Approval`, as embedded in receipts
(lines 196 and 255). -/
def approvalDict (a : Approval) : PyVal :=
  .pDict [("action_id", .pStr a.action_id), ("approved_by", .pStr a.approved_by),
          ("role", .pStr a.role), ("method", .pStr a.method),
          ("approved_at_ms", .pInt a.approved_at_ms)]

/-- `call.params.get(k, default)`. -/
def getParam (call : ToolCall) (k : String) (d : PyVal) : PyVal :=
  (aget call.params k).getD d

/-- `to.split("@")[-1] if "@" in to else ""` (line 219). -/
def emailDomain (toAddr : String) : String :=
  if toAddr.contains '@' then (toAddr.splitOn "@").getLastD "" else ""

/-- The body of `NuvallaHook.evaluate` (Agent_Misbehavior_Replay.py
lines 179-264) as a function of the call and of the approvals fetched for
`call.action_id`: the demo policy rules for stripe payments, netsuite
vendor creation, m365 email, ehr medication orders, and the final default
allow. -/
def NuvallaHook.evaluateCore (call : ToolCall) (approvals : List Approval) : NuvallaEval :=
  if call.system = "stripe" ∧ call.operation = "payment.execute" then
    let amt := (getParam call "amount_usd" (.pInt 0)).toInt
    if amt > 10000 ∧ approvals.isEmpty then
      { decision := .REQUIRE_APPROVAL,
        message := "Payment $" ++ toString amt ++ " requires CFO approval",
        commit_allowed := false, required_approvals := 1,
        receipt := [("policy", .pStr "payment_threshold"), ("amount_usd", .pInt amt)] }
    else
      { decision := .COMMIT,
        message := "Payment $" ++ toString amt ++ " allowed (policy ok)",
        commit_allowed := true,
        receipt := [("policy", .pStr "payment_threshold"), ("amount_usd", .pInt amt),
                    ("approvals", .pList (approvals.map approvalDict))] }
  else if call.system = "netsuite" ∧ call.operation = "vendor.create" then
    if (getParam call "kyc_passed" (.pBool false)).toBool = false then
      { decision := .BLOCK, message := "Vendor creation blocked: KYC not passed",
        commit_allowed := false,
        receipt := [("policy", .pStr "vendor_kyc_required")] }
    else
      { decision := .COMMIT, message := "Vendor creation allowed: KYC passed",
        commit_allowed := true,
        receipt := [("policy", .pStr "vendor_kyc_required")] }
  else if call.system = "m365" ∧ call.operation = "email.send" then
    let toAddr := (getParam call "to" (.pStr "")).toStr
    let contains_phi := (getParam call "contains_phi" (.pBool false)).toBool
    let domain := emailDomain toAddr
    if contains_phi = true ∧ domain ≠ "acmefinco.com" then
      { decision := .BLOCK, message := "Email blocked: external PHI (HIPAA rule)",
        commit_allowed := false,
        receipt := [("policy", .pStr "hipaa_no_external_phi"), ("to", .pStr toAddr)] }
    else if domain ≠ "acmefinco.com" then
      { decision := .BLOCK, message := "Email blocked: domain not allowlisted",
        commit_allowed := false,
        receipt := [("policy", .pStr "email_allowlist"), ("to", .pStr toAddr)] }
    else
      { decision := .COMMIT, message := "Email allowed (domain allowlist ok)",
        commit_allowed := true,
        receipt := [("policy", .pStr "email_allowlist"), ("to", .pStr toAddr)] }
  else if call.system = "ehr" ∧ call.operation = "medication.order" then
    if approvals.isEmpty then
      { decision := .REQUIRE_APPROVAL,
        message := "Medication order requires attending sign-off",
        commit_allowed := false, required_approvals := 1,
        receipt := [("policy", .pStr "ehr_attending_signoff")] }
    else
      { decision := .COMMIT, message := "Medication order approved and allowed",
        commit_allowed := true,
        receipt := [("policy", .pStr "ehr_attending_signoff"),
                    ("approvals", .pList (approvals.map approvalDict))] }
  else
    { decision := .COMMIT, message := "Allowed (no matching restrictive policy)",
      commit_allowed := true,
      receipt := [("policy", .pStr "default_allow")] }

/-- `NuvallaHook.evaluate` as a method on the hook's state: the body only
reads `self._approvals_by_action.get(call.action_id, [])` (line 179) and
never writes `self`, so the state comes back unchanged. -/
def NuvallaHook.evaluate (st : HookState) (call : ToolCall) : NuvallaEval × HookState :=
  (NuvallaHook.evaluateCore call (approvalsFor st call.action_id), st)

/-- `bool(call.params.get("force_post_commit_failure", False))` (line 348;
FINTECH_ONLY.py line 312 is the same test). -/
def forcePostCommitFailure (call : ToolCall) : Bool :=
  (getParam call "force_post_commit_failure" (.pBool false)).toBool

/-- Steps 2-onward of the per-call body of `run_trace_with_nuvalla`
(Agent_Misbehavior_Replay.py lines 342-357), after the decision `evalr` is
in hand: execute only when the decision is COMMIT with `commit_allowed`;
on the post-commit-failure flag run the compensating undo and replace the
decision with a synthesized UNDO decision whose receipt merges the commit
receipt with `post_commit_failure = True` and the undo result. -/
def runStepWith (evalr : NuvallaEval) (s : MockSystems) (call : ToolCall) :
    (NuvallaEval × Option ExecResult) × MockSystems :=
  if evalr.decision = Decision.COMMIT ∧ evalr.commit_allowed = true then
    if forcePostCommitFailure call = true then
      (({ decision := .UNDO,
          message := "Post-commit failure detected; compensating undo executed",
          commit_allowed := false,
          receipt := aset (aset evalr.receipt "post_commit_failure" (.pBool true))
                       "undo" (((s.execute call).2.undo call
                                  (s.execute call).1.external_id).1.toPy) },
        some (s.execute call).1),
       ((s.execute call).2.undo call (s.execute call).1.external_id).2)
    else ((evalr, some (s.execute call).1), (s.execute call).2)
  else ((evalr, none), s)

/-- The full per-call body of `run_trace_with_nuvalla` (lines 339-357):
evaluate through the hook, then gate execution on the decision. -/
def runStep (st : HookState) (s : MockSystems) (call : ToolCall) :
    (NuvallaEval × Option ExecResult) × MockSystems :=
  runStepWith (NuvallaHook.evaluate st call).1 s call

/-- The same per-call body against an arbitrary policy-evaluation port that
may fail (a hook whose `evaluate` raises).  Python propagates the exception
raised at line 340 before `systems.execute_direct` can run, so a failing
evaluation aborts the step with that error and no effect. -/
def runStepE {ε : Type} (ev : ToolCall → Except ε NuvallaEval) (s : MockSystems)
    (call : ToolCall) : Except ε ((NuvallaEval × Option ExecResult) × MockSystems) :=
  match ev call with
  | .error e => .error e
  | .ok evalr => .ok (runStepWith evalr s call)

/-- One interaction the FINTECH_ONLY replay runner has with the Nuvalla
adapter: delivering an approval (`adapter.submit_approval(a)`) or evaluating
a tool call (`adapter.intercept(call)` and what follows it). -/
inductive ReplayEvent : Type where
  | deliver (a : Approval)
  | evalCall (c : ToolCall)

/-- The governed part of `run_fintech_replay` (FINTECH_ONLY.py
lines 283-322) as the sequence of adapter interactions it performs, for a
schedule-index function `da` standing for the computed
`int(getattr(a, "deliver_after_step", 0)) if hasattr(a, "deliver_after_step") else 0`
of line 285.  The dict `approvals_by_step` groups the timeline by that
index with `setdefault(...).append(...)`, preserving timeline order inside
each group; the group at index `i` is therefore
`timeline.filter (fun a => da a == i)`.  The loop at line 294 runs the
calls with `idx` starting at 1, delivering group `idx - 1` before each
call, and lines 319-322 deliver the group at `len(tool_calls)` after the
last call; `i` below is `idx - 1`. -/
def replayLoop (da : Approval → Nat) (timeline : List Approval) :
    Nat → List ToolCall → List ReplayEvent
  | i, [] => (timeline.filter (fun a => da a == i)).map .deliver
  | i, c :: rest =>
    (timeline.filter (fun a => da a == i)).map .deliver
      ++ .evalCall c :: replayLoop da timeline (i + 1) rest

/-- All adapter interactions of one scenario's governed run
(`run_fintech_replay`, FINTECH_ONLY.py lines 283-322). -/
def fintechReplayEvents (da : Approval → Nat) (timeline : List Approval)
    (calls : List ToolCall) : List ReplayEvent :=
  replayLoop da timeline 0 calls

/-- The schedule index `run_fintech_replay` actually computes at line 285:
the frozen `Approval` dataclass of FINTECH_ONLY.py lines 59-68 declares
exactly the fields `action_id`, `approved_by`, `role`, `method` and
`approved_at_ms`, so `hasattr(a, "deliver_after_step")` is False for every
`Approval` and the computed index is the literal 0. -/
def deliverAfterOf (_ : Approval) : Nat := 0

/-- The approvals delivered strictly before the tool call with 0-based
index `i` is evaluated. -/
def deliveredBefore : List ReplayEvent → Nat → List Approval
  | [], _ => []
  | .deliver a :: es, i => a :: deliveredBefore es i
  | .evalCall _ :: _, 0 => []
  | .evalCall _ :: es, i + 1 => deliveredBefore es i

/-- All approvals the runner ever delivers, in delivery order. -/
def deliveredAll : List ReplayEvent → List Approval
  | [] => []
  | .deliver a :: es => a :: deliveredAll es
  | .evalCall _ :: es => deliveredAll es

/-- The schedule groups for indices `k, k+1, ..., k+i` in ascending index
order, each group in timeline (insertion) order. -/
def dueSlice (da : Approval → Nat) (timeline : List Approval) (k : Nat) :
    Nat → List Approval
  | 0 => timeline.filter (fun a => da a == k)
  | i + 1 =>
    timeline.filter (fun a => da a == k) ++ dueSlice da timeline (k + 1) i

/-- The approvals scheduled at or before step index `i`: groups for
indices 0..i in ascending order, each in timeline order. -/
def dueUpTo (da : Approval → Nat) (timeline : List Approval) (i : Nat) : List Approval :=
  dueSlice da timeline 0 i

/-! ### Sample concrete inputs (drawn from the trace library,
`build_traces`, Agent_Misbehavior_Replay.py lines 369-504) -/

/-- A fresh world, as `MockSystems()` constructs it. -/
def s0Demo : MockSystems := { state := [], idempotency := [], uuidCtr := 0 }

/-- The retried payment of trace 5, `fin_t5_pay` (lines 483-499). -/
def payCall : ToolCall :=
  { action_id := "fin_t5_pay", actor := "finance_agent", system := "stripe",
    operation := "payment.execute",
    params := [("amount_usd", .pInt 850), ("to_vendor", .pStr "CloudHostingCo"),
               ("invoice_id", .pStr "INV-9231")],
    txn_id := "txn_fin_5005", created_at_ms := 0 }

/-- The KYC-failing vendor creation of trace 1, `fin_t1_vendor`
(lines 381-388). -/
def vendorCall : ToolCall :=
  { action_id := "fin_t1_vendor", actor := "ap_agent", system := "netsuite",
    operation := "vendor.create",
    params := [("vendor_name", .pStr "ShadyCo LLC"), ("kyc_passed", .pBool false)],
    txn_id := "txn_fin_1001", created_at_ms := 0 }

/-- The claim reimbursement of trace 4, `ins_t1_pay`, flagged for a
post-commit failure (lines 465-473). -/
def claimCall : ToolCall :=
  { action_id := "ins_t1_pay", actor := "claims_agent", system := "stripe",
    operation := "payment.execute",
    params := [("amount_usd", .pInt 2400), ("to_vendor", .pStr "MemberReimbursement"),
               ("claim_id", .pStr "CLM-55210"), ("force_post_commit_failure", .pBool true)],
    txn_id := "txn_ins_4004", created_at_ms := 0 }

/-- A default-allow call under system `sysA`. -/
def dupCallA : ToolCall :=
  { action_id := "dup", actor := "agent", system := "sysA", operation := "op.x",
    params := [], txn_id := "t", created_at_ms := 0 }

/-- A retry of the SAME `action_id` issued against a DIFFERENT system name,
flagged for a post-commit failure. -/
def dupCallB : ToolCall :=
  { action_id := "dup", actor := "agent", system := "sysB", operation := "op.x",
    params := [("force_post_commit_failure", .pBool true)], txn_id := "t",
    created_at_ms := 0 }

/-- The world after committing `dupCallA`: one ledger record,
`sysA:0` under system `sysA`. -/
def sysAfterA : MockSystems := (s0Demo.execute dupCallA).2

/-! ### Helper lemmas -/

theorem aget_aset_self {α : Type} (m : List (String × α)) (k : String) (v : α) :
    aget (aset m k v) k = some v := by
  induction m with
  | nil => simp [aset, aget]
  | cons p t ih =>
    obtain ⟨k', v'⟩ := p
    by_cases h : k' = k
    · simp [aset, aget, h]
    · simp [aset, aget, h, ih]

theorem aget_aset_ne {α : Type} (m : List (String × α)) {k k₂ : String} (v : α)
    (h : k₂ ≠ k) : aget (aset m k v) k₂ = aget m k₂ := by
  have h' : ¬(k = k₂) := fun e => h e.symm
  induction m with
  | nil => simp [aset, aget, h']
  | cons p t ih =>
    obtain ⟨k', v'⟩ := p
    by_cases hk : k' = k
    · subst hk
      simp [aset, aget, h']
    · by_cases hk2 : k' = k₂ <;> simp [aset, aget, hk, hk2, h, ih]

theorem execute_replay (s : MockSystems) (c : ToolCall) (ext : String)
    (h : aget s.idempotency c.action_id = some ext) :
    s.execute c = ({ ok := true, external_id := ext, idempotent_replay := true }, s) := by
  unfold MockSystems.execute
  rw [h]

theorem execute_fresh (s : MockSystems) (c : ToolCall)
    (h : aget s.idempotency c.action_id = none) :
    s.execute c =
      ({ ok := true, external_id := newId c.system s.uuidCtr, idempotent_replay := false },
       { state := aset s.state c.system
           (aset ((aget s.state c.system).getD []) (newId c.system s.uuidCtr)
             { operation := c.operation, params := c.params, deleted := false }),
         idempotency := aset s.idempotency c.action_id (newId c.system s.uuidCtr),
         uuidCtr := s.uuidCtr + 1 }) := by
  unfold MockSystems.execute
  rw [h]

theorem sizeOfState_insert_fresh (st : List (String × List (String × LedgerRec)))
    (sys ext : String) (entry : LedgerRec)
    (h : aget ((aget st sys).getD []) ext = none) :
    sizeOfState (aset st sys (aset ((aget st sys).getD []) ext entry))
      = sizeOfState st + 1 := by
  induction st with
  | nil => simp [aget, aset, sizeOfState]
  | cons p t ih =>
    obtain ⟨s', l'⟩ := p
    by_cases hs : s' = sys
    · subst hs
      simp only [aget, if_pos rfl, Option.getD_some] at h ⊢
      have hlen : ∀ (m : List (String × LedgerRec)) (k : String) (v : LedgerRec),
          aget m k = none → (aset m k v).length = m.length + 1 := by
        intro m k v hm
        induction m with
        | nil => simp [aset]
        | cons q u ihm =>
          obtain ⟨k'', v''⟩ := q
          by_cases hq : k'' = k
          · simp [aget, hq] at hm
          · simp only [aget, if_neg hq] at hm
            simp [aset, hq, ihm hm]
      simp [aset, sizeOfState, hlen l' ext entry h, Nat.add_assoc, Nat.add_comm 1]
    · simp only [aget, if_neg hs] at h ⊢
      simp [aset, hs, sizeOfState] at ih ⊢
      have := ih h
      omega

/-- An evaluator that never fails agrees with the plain step: the two
embeddings of lines 339-357 coincide. -/
theorem runStepE_agrees (st : HookState) (s : MockSystems) (call : ToolCall) :
    @runStepE Unit (fun c => Except.ok (NuvallaHook.evaluate st c).1) s call
      = Except.ok (runStep st s call) := rfl

theorem deliveredBefore_map_deliver_append (xs : List Approval)
    (es : List ReplayEvent) (i : Nat) :
    deliveredBefore (xs.map .deliver ++ es) i = xs ++ deliveredBefore es i := by
  induction xs with
  | nil => rfl
  | cons a t ih => simp [deliveredBefore, ih]

theorem deliveredAll_map_deliver_append (xs : List Approval) (es : List ReplayEvent) :
    deliveredAll (xs.map .deliver ++ es) = xs ++ deliveredAll es := by
  induction xs with
  | nil => rfl
  | cons a t ih => simp [deliveredAll, ih]

theorem deliveredAll_map_deliver (xs : List Approval) :
    deliveredAll (xs.map .deliver) = xs := by
  have := deliveredAll_map_deliver_append xs []
  simpa [deliveredAll] using this

theorem deliveredBefore_replayLoop (da : Approval → Nat) (timeline : List Approval) :
    ∀ (calls : List ToolCall) (k i : Nat), i < calls.length →
      deliveredBefore (replayLoop da timeline k calls) i = dueSlice da timeline k i := by
  intro calls
  induction calls with
  | nil => intro k i hi; simp at hi
  | cons c rest ih =>
    intro k i hi
    cases i with
    | zero =>
      simp [replayLoop, deliveredBefore_map_deliver_append, deliveredBefore, dueSlice]
    | succ j =>
      have hj : j < rest.length := by simpa using hi
      simp [replayLoop, deliveredBefore_map_deliver_append, deliveredBefore, dueSlice,
        ih (k + 1) j hj]

theorem deliveredAll_replayLoop (da : Approval → Nat) (timeline : List Approval) :
    ∀ (calls : List ToolCall) (k : Nat),
      deliveredAll (replayLoop da timeline k calls) = dueSlice da timeline k calls.length := by
  intro calls
  induction calls with
  | nil => intro k; simp [replayLoop, deliveredAll_map_deliver, dueSlice]
  | cons c rest ih =>
    intro k
    simp [replayLoop, deliveredAll_map_deliver_append, deliveredAll, dueSlice, ih (k + 1)]

theorem mem_dueSlice_of_le (da : Approval → Nat) (timeline : List Approval)
    (a : Approval) (ha : a ∈ timeline) :
    ∀ (i k : Nat), k ≤ da a → da a ≤ k + i → a ∈ dueSlice da timeline k i := by
  intro i
  induction i with
  | zero =>
    intro k h1 h2
    have : da a = k := Nat.le_antisymm (by simpa using h2) h1
    simp [dueSlice, List.mem_filter, ha, this]
  | succ j ih =>
    intro k h1 h2
    by_cases he : da a = k
    · simp [dueSlice, List.mem_filter, ha, he]
    · have h1' : k + 1 ≤ da a := Nat.lt_of_le_of_ne h1 (fun e => he e.symm)
      have h2' : da a ≤ (k + 1) + j := by omega
      simp [dueSlice]
      exact Or.inr (ih (k + 1) h1' h2')

theorem undo_not_found (s : MockSystems) (call : ToolCall) (ext : String)
    (h : s.get_record call.system ext = none) :
    s.undo call ext = (UndoResult.err "record_not_found", s) := by
  unfold MockSystems.get_record at h
  unfold MockSystems.undo
  rw [h]

theorem undo_found (s : MockSystems) (call : ToolCall) (ext : String) (r : LedgerRec)
    (h : s.get_record call.system ext = some r) :
    (s.undo call ext).1 = UndoResult.ok ("undo:" ++ ext)
    ∧ (s.undo call ext).2.get_record call.system ext = some { r with deleted := true } := by
  unfold MockSystems.get_record at h
  unfold MockSystems.undo MockSystems.get_record
  rw [h]
  exact ⟨rfl, by simp [aget_aset_self]⟩

theorem execAll_replay (a ext : String) :
    ∀ (rest : List ToolCall) (s : MockSystems),
      aget s.idempotency a = some ext → (∀ c' ∈ rest, c'.action_id = a) →
      execAll rest s
        = (rest.map (fun _ => { ok := true, external_id := ext, idempotent_replay := true }),
           s) := by
  intro rest
  induction rest with
  | nil => intro s _ _; rfl
  | cons c cs ih =>
    intro s h hall
    have hc : c.action_id = a := hall c (by simp)
    have he : s.execute c = ({ ok := true, external_id := ext, idempotent_replay := true }, s) :=
      execute_replay s c ext (by rw [hc]; exact h)
    have ht := ih s h (fun c' hc' => hall c' (by simp [hc']))
    simp [execAll, he, ht]

theorem approvalsFor_approve (st : HookState) (a : Approval) (k : String) :
    approvalsFor (NuvallaHook.approve st a) k
      = approvalsFor st k ++ (if a.action_id = k then [a] else []) := by
  unfold approvalsFor NuvallaHook.approve
  by_cases h : a.action_id = k
  · rw [if_pos h, ← h, aget_aset_self]
    rfl
  · rw [if_neg h, aget_aset_ne st _ (fun e => h e.symm)]
    simp

theorem approvalsFor_recordAll (apprs : List Approval) :
    ∀ (st : HookState) (k : String),
      approvalsFor (recordAll st apprs) k
        = approvalsFor st k ++ apprs.filter (fun a => a.action_id == k) := by
  induction apprs with
  | nil => intro st k; simp [recordAll]
  | cons a t ih =>
    intro st k
    have hstep : recordAll st (a :: t) = recordAll (NuvallaHook.approve st a) t := rfl
    rw [hstep, ih, approvalsFor_approve]
    by_cases h : a.action_id = k
    · simp [List.filter_cons, h]
    · simp [List.filter_cons, h]

/-! ### Claim theorems -/

/-- C1: for every `action_id` `a`, calling the execution ledger's `execute`
with N >= 1 tool calls sharing `a` (a first call `c` followed by any `rest`
of retries) creates exactly one ledger record (`sizeOfState` grows by one
on the first call and the world is bit-for-bit unchanged by every later
call), returns the same `external_id` on every call, and only the first
call reports `idempotent_replay = false`; every later call returns the
stored entry with `idempotent_replay = true` and produces no new external
effect.  The two freshness hypotheses say that `a` has not been executed
before and that the minted uuid is unused, which `uuid.uuid4()`
guarantees. -/
theorem ledger_execute_idempotent (a : String) (c : ToolCall) (rest : List ToolCall)
    (s0 : MockSystems)
    (hc : c.action_id = a)
    (hrest : ∀ c' ∈ rest, c'.action_id = a)
    (hfresh : aget s0.idempotency a = none)
    (hext : aget ((aget s0.state c.system).getD []) (newId c.system s0.uuidCtr) = none) :
    (s0.execute c).1.idempotent_replay = false
    ∧ (s0.execute c).1.ok = true
    ∧ sizeOfState (s0.execute c).2.state = sizeOfState s0.state + 1
    ∧ execAll rest (s0.execute c).2
        = (rest.map (fun _ => { ok := true, external_id := (s0.execute c).1.external_id,
                                idempotent_replay := true }),
           (s0.execute c).2) := by
  have hfresh' : aget s0.idempotency c.action_id = none := by rw [hc]; exact hfresh
  have he := execute_fresh s0 c hfresh'
  refine ⟨by rw [he], by rw [he], ?_, ?_⟩
  · rw [he]
    exact sizeOfState_insert_fresh s0.state c.system (newId c.system s0.uuidCtr) _ hext
  · have hsome : aget (s0.execute c).2.idempotency a = some (s0.execute c).1.external_id := by
      rw [he, ← hc]
      exact aget_aset_self s0.idempotency c.action_id (newId c.system s0.uuidCtr)
    exact execAll_replay a (s0.execute c).1.external_id rest (s0.execute c).2 hsome hrest

/-- C1 witness: the idempotent-retry trace (`fin_t5_pay` submitted twice)
on a fresh world. -/
theorem ledger_execute_idempotent_witness :
    execAll [payCall] (s0Demo.execute payCall).2
      = ([{ ok := true, external_id := (s0Demo.execute payCall).1.external_id,
            idempotent_replay := true }],
         (s0Demo.execute payCall).2) :=
  (ledger_execute_idempotent "fin_t5_pay" payCall [payCall] s0Demo rfl
    (by intro c' h; rw [List.mem_singleton] at h; rw [h]; rfl) rfl rfl).2.2.2

/-- C2: for every submitted tool call, the external-system execute is
invoked (the step returns an `ExecResult`) if and only if the hook's
decision has state COMMIT with `commit_allowed = true`; in particular a
BLOCK or REQUIRE_APPROVAL decision leaves the world unchanged — no ledger
entry is created for that call. -/
theorem no_side_effect_without_commit (st : HookState) (s : MockSystems) (call : ToolCall) :
    ((runStep st s call).1.2.isSome = true ↔
       ((NuvallaHook.evaluate st call).1.decision = Decision.COMMIT
         ∧ (NuvallaHook.evaluate st call).1.commit_allowed = true))
    ∧ (((NuvallaHook.evaluate st call).1.decision = Decision.BLOCK
         ∨ (NuvallaHook.evaluate st call).1.decision = Decision.REQUIRE_APPROVAL) →
        (runStep st s call).2 = s ∧ (runStep st s call).1.2 = none) := by
  unfold runStep runStepWith
  by_cases h : (NuvallaHook.evaluate st call).1.decision = Decision.COMMIT
      ∧ (NuvallaHook.evaluate st call).1.commit_allowed = true
  · rw [if_pos h]
    constructor
    · by_cases hf : forcePostCommitFailure call = true
      · rw [if_pos hf]; simp [h]
      · rw [if_neg hf]; simp [h]
    · intro hd
      rcases hd with hd | hd <;> rw [hd] at h <;> exact absurd h.1 (by decide)
  · rw [if_neg h]
    constructor
    · simp [h]
    · intro _; exact ⟨rfl, rfl⟩

/-- C3: if the policy-evaluation step errors for a submitted call, the
pipeline aborts the step with exactly that error: no execution happens, so
no ledger entry is created for the call's `action_id` (the caller's world
is untouched), the surfaced result is the distinct policy error — the
spec's `PolicyUnavailable` — and in particular the step never turns a
policy failure into a COMMIT. -/
theorem fail_closed_on_policy_error {ε : Type} (ev : ToolCall → Except ε NuvallaEval)
    (s : MockSystems) (call : ToolCall) (e : ε)
    (h : ev call = Except.error e) :
    runStepE ev s call = Except.error e := by
  unfold runStepE
  rw [h]

/-- C3 witness: a policy port that raises `PolicyUnavailable` aborts the
step with that same error. -/
theorem fail_closed_on_policy_error_witness :
    runStepE (fun _ => Except.error "PolicyUnavailable") s0Demo payCall
      = Except.error "PolicyUnavailable" :=
  fail_closed_on_policy_error (fun _ => Except.error "PolicyUnavailable")
    s0Demo payCall "PolicyUnavailable" rfl

/-- C4 counterexample: the claim "the pipeline performs the compensating
undo (so the ledger record's deleted field becomes true)" fails at a
concrete input.  `dupCallB` reuses the `action_id` of the already-committed
`dupCallA` but carries a different `system` name, so its COMMIT is an
idempotent replay of external id `sysA:0`; the undo then looks that id up
under `sysB` (line 128), finds nothing, and returns `record_not_found`
without touching any record.  The step still synthesizes the UNDO decision,
yet the one ledger record keeps `deleted = false` and the world is
unchanged. -/
theorem compensation_counterexample :
    (runStep ([] : HookState) sysAfterA dupCallB).1.1.decision = Decision.UNDO
    ∧ (runStep ([] : HookState) sysAfterA dupCallB).1.2
        = some { ok := true, external_id := "sysA:0", idempotent_replay := true }
    ∧ (runStep ([] : HookState) sysAfterA dupCallB).2 = sysAfterA
    ∧ sysAfterA.get_record "sysA" "sysA:0"
        = some { operation := "op.x", params := [], deleted := false }
    ∧ sysAfterA.get_record "sysB" "sysA:0" = none :=
  ⟨rfl, rfl, rfl, rfl, rfl⟩

/-- C4 (amended): when a committed call carries the post-commit failure
signal, the pipeline invokes the compensating undo and returns, in place of
the original COMMIT decision, a synthesized decision with state UNDO,
`commit_allowed = false`, and a receipt equal to the originating commit's
receipt merged with `post_commit_failure = true` and the undo result; the
ledger record's `deleted` field becomes true provided a record for the
commit's `external_id` exists under the call's own `system` — which always
holds except when the commit was an idempotent replay of an action first
executed under a different system name. -/
theorem compensation_on_post_commit_failure (st : HookState) (s : MockSystems)
    (call : ToolCall)
    (hd : (NuvallaHook.evaluate st call).1.decision = Decision.COMMIT
          ∧ (NuvallaHook.evaluate st call).1.commit_allowed = true)
    (hf : forcePostCommitFailure call = true) :
    (runStep st s call).1.1
      = { decision := Decision.UNDO,
          message := "Post-commit failure detected; compensating undo executed",
          commit_allowed := false, required_approvals := 0,
          receipt := aset (aset (NuvallaHook.evaluate st call).1.receipt
              "post_commit_failure" (.pBool true)) "undo"
              (((s.execute call).2.undo call (s.execute call).1.external_id).1.toPy) }
    ∧ (runStep st s call).2
        = ((s.execute call).2.undo call (s.execute call).1.external_id).2
    ∧ (∀ r : LedgerRec,
        (s.execute call).2.get_record call.system (s.execute call).1.external_id = some r →
        (runStep st s call).2.get_record call.system (s.execute call).1.external_id
          = some { r with deleted := true }) := by
  unfold runStep runStepWith
  rw [if_pos hd, if_pos hf]
  refine ⟨rfl, rfl, ?_⟩
  intro r hr
  exact (undo_found (s.execute call).2 call (s.execute call).1.external_id r hr).2

/-- C4 witness: the claims-reimbursement trace (`ins_t1_pay`, flagged for a
post-commit failure) on a fresh world: the step's final state is the state
after the compensating undo. -/
theorem compensation_on_post_commit_failure_witness :
    (runStep ([] : HookState) s0Demo claimCall).2
      = ((s0Demo.execute claimCall).2.undo claimCall
          (s0Demo.execute claimCall).1.external_id).2 :=
  (compensation_on_post_commit_failure ([] : HookState) s0Demo claimCall
    (by decide) (by decide)).2.1

/-- C5: the ledger `undo` fails with `record_not_found` (the spec's
`NotFound`) and changes nothing when no record exists for the given system
and `external_id`; otherwise it sets `deleted = true` on the record and
returns the compensation identifier `undo:<external_id>`, derived
deterministically from the external id, so a repeated undo of the same
committed entry succeeds again and returns the same identifier. -/
theorem undo_semantics (s : MockSystems) (call : ToolCall) (ext : String) :
    (s.get_record call.system ext = none →
       s.undo call ext = (UndoResult.err "record_not_found", s))
    ∧ (∀ r : LedgerRec, s.get_record call.system ext = some r →
        (s.undo call ext).1 = UndoResult.ok ("undo:" ++ ext)
        ∧ (s.undo call ext).2.get_record call.system ext = some { r with deleted := true }
        ∧ ((s.undo call ext).2.undo call ext).1 = UndoResult.ok ("undo:" ++ ext)) := by
  refine ⟨undo_not_found s call ext, ?_⟩
  intro r hr
  have h1 := undo_found s call ext r hr
  exact ⟨h1.1, h1.2, (undo_found (s.undo call ext).2 call ext _ h1.2).1⟩

/-- C6: compensating a call whose pipeline state is not COMMITTED is
rejected, not silently accepted: a call decided BLOCK or REQUIRE_APPROVAL
is never executed (the step leaves the world unchanged and invokes no
undo), and an undo attempted against it — there being no ledger record for
it — fails with `record_not_found` (the spec's NotFound arm of
"InvariantViolation or NotFound") and performs no state change. -/
theorem compensate_non_committed_rejected (st : HookState) (s : MockSystems)
    (call : ToolCall) (ext : String)
    (hdec : (NuvallaHook.evaluate st call).1.decision = Decision.BLOCK
            ∨ (NuvallaHook.evaluate st call).1.decision = Decision.REQUIRE_APPROVAL)
    (hno : s.get_record call.system ext = none) :
    (runStep st s call).2 = s
    ∧ (runStep st s call).1.2 = none
    ∧ s.undo call ext = (UndoResult.err "record_not_found", s) := by
  have hnc : ¬((NuvallaHook.evaluate st call).1.decision = Decision.COMMIT
      ∧ (NuvallaHook.evaluate st call).1.commit_allowed = true) := by
    rcases hdec with hd | hd <;> intro hcon <;> rw [hd] at hcon <;>
      exact absurd hcon.1 (by decide)
  unfold runStep runStepWith
  rw [if_neg hnc]
  exact ⟨rfl, rfl, undo_not_found s call ext hno⟩

/-- C6 witness: the KYC-failing vendor creation is BLOCKed on a fresh
world, and an undo attempted against it is rejected with
`record_not_found` and no state change. -/
theorem compensate_non_committed_rejected_witness :
    s0Demo.undo vendorCall "netsuite:0" = (UndoResult.err "record_not_found", s0Demo) :=
  (compensate_non_committed_rejected ([] : HookState) s0Demo vendorCall "netsuite:0"
    (Or.inl (by decide)) rfl).2.2

/-- C7: the approval registry is append-only and order-preserving.  After
recording any sequence `apprs` into a fresh registry, the approvals held
for a key `k` are exactly the approvals of the sequence recorded under `k`,
in recording order and without deduplication (a duplicate in `apprs`
appears twice in the filter); a key nothing was recorded under yields the
empty list (the filter is empty).  Recording any further sequence `more`
only appends: every earlier read is a prefix of every later read. -/
theorem approval_registry_append_only (apprs : List Approval) (k : String) :
    approvalsFor (recordAll ([] : HookState) apprs) k
      = apprs.filter (fun a => a.action_id == k)
    ∧ (∀ more : List Approval,
        approvalsFor (recordAll (recordAll ([] : HookState) apprs) more) k
          = approvalsFor (recordAll ([] : HookState) apprs) k
            ++ more.filter (fun a => a.action_id == k)) := by
  constructor
  · have h := approvalsFor_recordAll apprs ([] : HookState) k
    simpa [approvalsFor, aget] using h
  · intro more
    exact approvalsFor_recordAll more (recordAll ([] : HookState) apprs) k

/-- C8: in the FINTECH_ONLY replay runner, for any schedule-index function
`da` (the value `run_fintech_replay` computes per approval at line 285),
the approvals delivered before the tool call with 0-based index `i` are
exactly the timeline approvals scheduled at indices 0..i — grouped by
index in ascending order and, within one index, in timeline (insertion)
order — so every approval scheduled at or before `i` is delivered before
that step's call is evaluated; and the approvals ever delivered are
exactly those scheduled at indices up to the number of steps, so approvals
scheduled at index `calls.length` are delivered, after the last step. -/
theorem scheduled_delivery_order (da : Approval → Nat) (timeline : List Approval)
    (calls : List ToolCall) :
    (∀ i, i < calls.length →
       deliveredBefore (fintechReplayEvents da timeline calls) i = dueUpTo da timeline i)
    ∧ (∀ i, i < calls.length → ∀ a ∈ timeline, da a ≤ i →
        a ∈ deliveredBefore (fintechReplayEvents da timeline calls) i)
    ∧ deliveredAll (fintechReplayEvents da timeline calls)
        = dueUpTo da timeline calls.length := by
  refine ⟨?_, ?_, ?_⟩
  · intro i hi
    exact deliveredBefore_replayLoop da timeline calls 0 i hi
  · intro i hi a ha hle
    rw [fintechReplayEvents, deliveredBefore_replayLoop da timeline calls 0 i hi]
    exact mem_dueSlice_of_le da timeline a ha i 0 (Nat.zero_le _) (by simpa using hle)
  · exact deliveredAll_replayLoop da timeline calls 0

/-- C9: policy evaluation is pure from the gateway's point of view:
evaluating leaves the approval store unchanged; two evaluations of the
same call against stores holding the same approvals for the call's own
`action_id` return equal decisions (so the decision depends only on the
call's fields and those approvals); and recording an approval under a
different `action_id` never changes the result. -/
theorem evaluate_pure (st : HookState) (call : ToolCall) :
    (NuvallaHook.evaluate st call).2 = st
    ∧ (∀ st' : HookState,
        approvalsFor st' call.action_id = approvalsFor st call.action_id →
        (NuvallaHook.evaluate st' call).1 = (NuvallaHook.evaluate st call).1)
    ∧ (∀ a : Approval, a.action_id ≠ call.action_id →
        (NuvallaHook.evaluate (NuvallaHook.approve st a) call).1
          = (NuvallaHook.evaluate st call).1) := by
  refine ⟨rfl, ?_, ?_⟩
  · intro st' h
    unfold NuvallaHook.evaluate
    rw [h]
  · intro a h
    unfold NuvallaHook.evaluate
    rw [approvalsFor_approve, if_neg h]
    simp

/-- C10: in the FINTECH_ONLY replay runner every approval of a trace's
`approvals_timeline` is delivered before the first tool call of the
governed run executes: the frozen `Approval` dataclass has no
`deliver_after_step` field, so the `hasattr` check of line 285 is false
for every approval, each one gets schedule index 0 (`deliverAfterOf`),
and the approvals delivered before the call at index 0 are the whole
timeline — the scheduled-delivery mechanism never defers an approval. -/
theorem fintech_approvals_all_upfront (timeline : List Approval) (c : ToolCall)
    (rest : List ToolCall) :
    (∀ a : Approval, deliverAfterOf a = 0)
    ∧ deliveredBefore (fintechReplayEvents deliverAfterOf timeline (c :: rest)) 0
        = timeline := by
  refine ⟨fun _ => rfl, ?_⟩
  have h := deliveredBefore_replayLoop deliverAfterOf timeline (c :: rest) 0 0 (by simp)
  rw [fintechReplayEvents, h]
  simp [dueSlice, deliverAfterOf]

/-! ### Concrete sanity checks against the trace library -/

/-- The KYC-failing vendor creation of trace 1 is BLOCKed. -/
theorem vendor_kyc_blocked :
    (NuvallaHook.evaluate ([] : HookState) vendorCall).1.decision = Decision.BLOCK := rfl

/-- The small retried payment of trace 5 COMMITs with no approvals. -/
theorem small_payment_commits :
    (NuvallaHook.evaluate ([] : HookState) payCall).1.decision = Decision.COMMIT
    ∧ (NuvallaHook.evaluate ([] : HookState) payCall).1.commit_allowed = true :=
  ⟨rfl, rfl⟩

/-- Submitting trace 5's payment twice through the governed step: the
second submission is an idempotent replay of the same external id and the
world does not change again. -/
theorem replayed_payment_sanity :
    (runStep ([] : HookState) s0Demo payCall).1.2
      = some { ok := true, external_id := "stripe:0", idempotent_replay := false }
    ∧ (runStep ([] : HookState) (runStep ([] : HookState) s0Demo payCall).2 payCall).1.2
      = some { ok := true, external_id := "stripe:0", idempotent_replay := true }
    ∧ (runStep ([] : HookState) (runStep ([] : HookState) s0Demo payCall).2 payCall).2
      = (runStep ([] : HookState) s0Demo payCall).2 :=
  ⟨rfl, rfl, rfl⟩

end Nuvalla
